import Mathlib

/-!
Verification of the `ts` timesheet CLI (src/src/main.rs) against its
natural-language specification.

The embedding works over `List Char` for text. Rust `i64`/`u64`/`u32`
values are modelled as `Int`/`Nat` with the overflow checks of
`str::parse` made explicit; the one place where a narrowing cast matters
(the `as i32` in the weekday computation of `process_log_for_report`) is
modelled by an explicit two's-complement wrap. `f64` percentages and
hours are modelled as exact rationals (the claims under study are about
exact values, not display rounding). `HashMap` iteration order, which is
unspecified in Rust, is modelled as insertion order.
-/

namespace Timesheet

/-- Whitespace predicate used by Rust's `str::trim` (ASCII part; the
claims never involve non-ASCII whitespace). -/
def isWs (c : Char) : Bool :=
  c = ' ' || c = '\t' || c = '\n' || c = '\r' || c = '\x0b' || c = '\x0c'

/-- Model of Rust `str::trim_end`: drop trailing whitespace. -/
def rustTrimEnd (s : List Char) : List Char :=
  (s.reverse.dropWhile isWs).reverse

/-- Model of Rust `str::trim`: drop leading and trailing whitespace. -/
def rustTrim (s : List Char) : List Char :=
  rustTrimEnd (s.dropWhile isWs)

/-- Model of Rust `str::strip_prefix` specialised to `List Char`. -/
def stripTag : List Char → List Char → Option (List Char)
  | [], s => some s
  | _ :: _, [] => none
  | p :: ps, c :: cs => if c = p then stripTag ps cs else none

/-- Model of `splitn(2, '|')`: the part before the first `'|'`, and
(if a `'|'` is present) everything after it, verbatim. -/
def splitFirstBar : List Char → List Char × Option (List Char)
  | [] => ([], none)
  | c :: cs =>
    if c = '|' then ([], some cs)
    else (c :: (splitFirstBar cs).1, (splitFirstBar cs).2)

/-- Decimal digit character for a value below ten. -/
def digitChar (n : Nat) : Char := Char.ofNat (48 + n)

/-- Fuel-driven decimal printing of a natural number (most significant
digit first); structural so that the kernel can evaluate it. -/
def natToDigitsFuel : Nat → Nat → List Char
  | 0, _ => []
  | f + 1, n =>
    if n < 10 then [digitChar n]
    else natToDigitsFuel f (n / 10) ++ [digitChar (n % 10)]

/-- Decimal representation of a natural number, as Rust's `Display`
for unsigned integers prints it. -/
def natToDigits (n : Nat) : List Char := natToDigitsFuel (n + 1) n

/-- Decimal representation of an `i64`, as Rust's `Display` prints it. -/
def intToString (n : Int) : List Char :=
  if n < 0 then '-' :: natToDigits (-n).toNat else natToDigits n.toNat

/-- Value of a nonempty all-digit string, or `none` otherwise
(the digits-only core of Rust's integer `FromStr`). -/
def digitsVal (s : List Char) : Option Nat :=
  if s ≠ [] ∧ s.all Char.isDigit then
    some (s.foldl (fun acc c => 10 * acc + (c.toNat - 48)) 0)
  else none

/-- Magnitude parse with an inclusive upper bound (overflow rejection). -/
def parseUnsignedCore (bound : Nat) (s : List Char) : Option Nat :=
  (digitsVal s).bind fun m => if m ≤ bound then some m else none

/-- Rust `str::parse` for an unsigned integer type with maximum `bound`:
an optional `'+'` sign, then digits, rejecting overflow. -/
def parseUnsigned (bound : Nat) (s : List Char) : Option Nat :=
  match s with
  | [] => none
  | c :: rest =>
    if c = '+' then parseUnsignedCore bound rest else parseUnsignedCore bound (c :: rest)

/-- Rust `str::parse::<u64>`. -/
def parseU64 (s : List Char) : Option Nat := parseUnsigned (2 ^ 64 - 1) s

/-- Rust `str::parse::<u32>`. -/
def parseU32 (s : List Char) : Option Nat := parseUnsigned (2 ^ 32 - 1) s

/-- Rust `str::parse::<i64>`: optional sign, digits, overflow check. -/
def parseI64 (s : List Char) : Option Int :=
  match s with
  | [] => none
  | c :: rest =>
    if c = '+' then
      (digitsVal rest).bind fun m => if m ≤ 2 ^ 63 - 1 then some (m : Int) else none
    else if c = '-' then
      (digitsVal rest).bind fun m => if m ≤ 2 ^ 63 then some (-(m : Int)) else none
    else
      (digitsVal (c :: rest)).bind fun m => if m ≤ 2 ^ 63 - 1 then some (m : Int) else none

/-- A parsed timesheet log line (`enum LogLine` in main.rs). -/
inductive LogLine where
  /-- `START|epoch|activity` -/
  | start (epoch : Int) (activity : List Char)
  /-- `STOP|epoch` -/
  | stop (epoch : Int)
deriving DecidableEq

/-- The characters of the tag `START|`. -/
def startTag : List Char := ['S', 'T', 'A', 'R', 'T', '|']

/-- The characters of the tag `STOP|`. -/
def stopTag : List Char := ['S', 'T', 'O', 'P', '|']

/-- Embedding of `parse_line` (main.rs lines 210–223): trim, try
`START|<epoch>|<activity>` (activity is everything after the first `'|'`
following the epoch field, verbatim), then `STOP|<epoch>`. -/
def parse_line (s : List Char) : Option LogLine :=
  match stripTag startTag (rustTrim s) with
  | some rest =>
    match parseI64 (rustTrim (splitFirstBar rest).1) with
    | some e => some (.start e ((splitFirstBar rest).2.getD []))
    | none => none
  | none =>
    match stripTag stopTag (rustTrim s) with
    | some rest =>
      match parseI64 (rustTrim rest) with
      | some e => some (.stop e)
      | none => none
    | none => none

/-- The line `cmd_stop` appends: `STOP|{epoch}\n` (main.rs line 531). -/
def stop_line (e : Int) : List Char := stopTag ++ (intToString e ++ ['\n'])

/-- Serialisation of a log entry exactly as the program writes it:
`START|{epoch}|{activity}\n` (append_start_entry, main.rs line 173) or
`STOP|{epoch}\n` (cmd_stop, main.rs line 531). -/
def serialize_entry : LogLine → List Char
  | .start e a => startTag ++ (intToString e ++ ('|' :: (a ++ ['\n'])))
  | .stop e => stop_line e

/-- Split a character list at every `'\n'`, keeping all (possibly empty)
pieces; always returns at least one piece. -/
def splitNl : List Char → List (List Char)
  | [] => [[]]
  | c :: cs =>
    match splitNl cs with
    | [] => [[c]]
    | h :: t => if c = '\n' then [] :: h :: t else (c :: h) :: t

/-- Drop one trailing `'\r'`, as Rust's `str::lines` does per line. -/
def dropCr (l : List Char) : List Char :=
  if l.getLast? = some '\r' then l.dropLast else l

/-- Model of Rust `str::lines`: split on `'\n'`, drop the final empty
piece produced by a trailing newline, strip one trailing `'\r'` per line. -/
def rustLines (s : List Char) : List (List Char) :=
  let parts := splitNl s
  let parts := if parts.getLast? = some [] then parts.dropLast else parts
  parts.map dropCr

/-- Two's-complement wrap of an integer into the `i32` range, modelling
the `as i32` cast in `process_log_for_report`. -/
def wrap32 (n : Int) : Int := (n + 2 ^ 31) % 2 ^ 32 - 2 ^ 31

/-- Weekday bucket index computed by `process_log_for_report`
(main.rs lines 552–553): `((start_epoch / 86400) as i32 + 4).rem_euclid(7)`,
with Rust `/` being truncating division. -/
def dowIndex (startEpoch : Int) : Nat :=
  ((wrap32 (wrap32 (startEpoch.tdiv 86400) + 4)) % 7).toNat

/-- Model of `act_sec.entry(k).or_insert(0) += v` on an association list
(a deterministic refinement of `HashMap`). -/
def bump : List (List Char × Int) → List Char → Int → List (List Char × Int)
  | [], k, v => [(k, v)]
  | (k', v') :: rest, k, v =>
    if k' = k then (k', v' + v) :: rest else (k', v') :: bump rest k v

/-- Close a session that started at `s` with activity `act` at end time `e`:
if the duration is positive, credit it to the activity and to the weekday
bucket of the session start (main.rs lines 548–555 and 560–567). -/
def closeAt (e s : Int) (act : List Char) (actSec : List (List Char × Int))
    (dowSec : List Int) : List (List Char × Int) × List Int :=
  if 0 < e - s then
    (bump actSec act (e - s),
     dowSec.set (dowIndex s) (dowSec.getD (dowIndex s) 0 + (e - s)))
  else (actSec, dowSec)

/-- Mutable state of the report loop: the LIFO stack of open sessions,
seconds per activity, seconds per weekday. -/
structure RState where
  stack : List (Int × List Char)
  actSec : List (List Char × Int)
  dowSec : List Int
deriving DecidableEq

/-- One iteration of the report loop of `process_log_for_report`
(main.rs lines 544–571): a Start closes the session on top of the stack
(if any) at its own epoch and is pushed; a Stop closes the top (if any). -/
def stepEntry (st : RState) : LogLine → RState
  | .start e a =>
    match st.stack with
    | [] => { st with stack := [(e, a)] }
    | (s, act) :: rest =>
      let p := closeAt e s act st.actSec st.dowSec
      { stack := (e, a) :: rest, actSec := p.1, dowSec := p.2 }
  | .stop e =>
    match st.stack with
    | [] => st
    | (s, act) :: rest =>
      let p := closeAt e s act st.actSec st.dowSec
      { stack := rest, actSec := p.1, dowSec := p.2 }

/-- Stable insertion for the descending-percentage sort
(`by_act.sort_by(|a, b| b.1.partial_cmp(&a.1))`). -/
def insertByPct (x : List Char × ℚ × ℚ) :
    List (List Char × ℚ × ℚ) → List (List Char × ℚ × ℚ)
  | [] => [x]
  | y :: ys => if y.2.1 < x.2.1 then x :: y :: ys else y :: insertByPct x ys

/-- Stable sort by descending percentage. -/
def sortByPctDesc : List (List Char × ℚ × ℚ) → List (List Char × ℚ × ℚ)
  | [] => []
  | x :: xs => insertByPct x (sortByPctDesc xs)

/-- Embedding of `process_log_for_report` (main.rs lines 540–597).
Input entries carry the (unused) 1-based line number, as in the source.
Returns `(by_act, dow_hr, work_in_progress)` where `by_act` lists
`(activity, percent, hours)` sorted by descending percentage and
`dow_hr` is the seven-element hours-per-weekday array (Sunday first). -/
def process_log_for_report (lines : List (Nat × LogLine)) (virtual_stop : Option Int) :
    List (List Char × ℚ × ℚ) × List ℚ × Bool :=
  let st := lines.foldl (fun st x => stepEntry st x.2) ⟨[], [], List.replicate 7 0⟩
  let st :=
    match virtual_stop, st.stack with
    | some v, (s, act) :: rest =>
      let p := closeAt v s act st.actSec st.dowSec
      RState.mk rest p.1 p.2
    | _, _ => st
  let total : Int := (st.actSec.map (fun p => p.2)).sum
  let work_in_progress := !st.stack.isEmpty
  let by_act := st.actSec.map fun p =>
    (p.1, 100 * (p.2 : ℚ) / (total : ℚ), (p.2 : ℚ) / 3600)
  (sortByPctDesc by_act, st.dowSec.map (fun s : Int => (s : ℚ) / 3600), work_in_progress)

/-- The shared idiom `content.lines().rev().find(|l| !l.trim().is_empty())`:
the last non-blank line of the content, if any. -/
def last_nonblank_line (content : List Char) : Option (List Char) :=
  (rustLines content).reverse.find? (fun l => !(rustTrim l).isEmpty)

/-- Embedding of `last_line_epoch` (main.rs lines 226–233): the file
content, or `none` when the file is missing/unreadable; finds the last
non-blank line and returns its epoch only if that very line parses. -/
def last_line_epoch (file : Option (List Char)) : Option Int :=
  match file with
  | none => none
  | some content =>
    match last_nonblank_line content with
    | none => none
    | some line =>
      match parse_line line with
      | some (.start e _) => some e
      | some (.stop e) => some e
      | none => none

/-- Embedding of `max_epoch_in_log` (main.rs lines 236–254): maximum
epoch over all parseable lines, starting from 0; `none` if that maximum
is still 0. -/
def max_epoch_in_log (content : List Char) : Option Int :=
  let m := (rustLines content).foldl
    (fun mx l =>
      match parse_line l with
      | some (.start e _) => if mx < e then e else mx
      | some (.stop e) => if mx < e then e else mx
      | none => mx) 0
  if m = 0 then none else some m

/-- The two files `do_rotate` touches: the active log and the dated
destination `<stem>.<YYMMDD>` computed from the maximum epoch (the stamp
arithmetic itself is local-time formatting and is abstracted into the
single `rotated` slot). `none` means the file does not exist. -/
structure FS where
  log : Option (List Char)
  rotated : Option (List Char)
deriving DecidableEq

/-- Is the last non-blank line a raw `START|` line
(main.rs lines 290–291; note: no trim before `starts_with`)? -/
def lastNonBlankIsStart (content : List Char) : Bool :=
  match last_nonblank_line content with
  | some l => startTag.isPrefixOf l
  | none => false

/-- The log content after `do_rotate`'s first step: if the last
non-blank line is a raw START line, a `STOP|now` line is appended
(main.rs lines 290–296). -/
def rotate_content (content0 : List Char) (now : Int) : List Char :=
  if lastNonBlankIsStart content0 then content0 ++ stop_line now else content0

/-- Embedding of `do_rotate` (main.rs lines 285–317). Returns the
resulting file states together with `some errorMessage` on failure.
If the last entry is an open START, a `STOP|now` line is appended first;
if the dated destination exists the whole (possibly amended) content is
appended to it and the source removed, otherwise the source is renamed. -/
def do_rotate (fs : FS) (now : Int) : FS × Option String :=
  match fs.log with
  | none => (fs, some "ts rotate: no timesheet data found.")
  | some content0 =>
    match max_epoch_in_log (rotate_content content0 now) with
    | none => (FS.mk (some (rotate_content content0 now)) fs.rotated,
               some "ts rotate: no valid entries in timesheet.")
    | some _ =>
      match fs.rotated with
      | some d => (FS.mk none (some (d ++ rotate_content content0 now)), none)
      | none => (FS.mk none (some (rotate_content content0 now)), none)

/-- Embedding of `maybe_rotate_if_previous_week` (main.rs lines 320–334).
`weekStart` abstracts `week_start_epoch` (chrono local-time arithmetic). -/
def maybe_rotate_if_previous_week (weekStart : Int → Int) (fs : FS) (now : Int) :
    FS × Option String :=
  match fs.log with
  | none => (fs, none)
  | some _ =>
    match last_line_epoch fs.log with
    | none => (fs, none)
    | some e => if e < weekStart now then do_rotate fs now else (fs, none)

/-- Rewritten tail used by the STOP-amendment branch of `cmd_stop`
(main.rs lines 514–519): all lines but the last, joined with `'\n'` and
given a trailing newline (empty when there are no lines). -/
def without_last (content : List Char) : List Char :=
  let ls := rustLines content
  if ls.isEmpty then [] else (List.intercalate ['\n'] ls.dropLast) ++ ['\n']

/-- Does the last non-blank line start with the raw tag `STOP|`
(main.rs line 509; no trim before `starts_with`)? -/
def lastNonBlankIsStop (content : List Char) : Bool :=
  match last_nonblank_line content with
  | some l => stopTag.isPrefixOf l
  | none => false

/-- Embedding of `cmd_stop` (main.rs lines 505–538). `parseTime`
abstracts `parse_start_time` (chrono format parsing); `arg` is the
optional stop-time argument. Daemon signalling and printing are side
effects outside the file model. -/
def cmd_stop (weekStart : Int → Int) (parseTime : List Char → Option Int)
    (arg : Option (List Char)) (fs : FS) (now : Int) : FS × Option String :=
  match maybe_rotate_if_previous_week weekStart fs now with
  | (fs1, some err) => (fs1, some err)
  | (fs1, none) =>
    if lastNonBlankIsStop (fs1.log.getD []) then
      match arg with
      | none => (fs1, none)
      | some t =>
        match parseTime t with
        | none => (fs1, some "ts stop: could not parse stop time.")
        | some e =>
          (FS.mk (some (without_last (fs1.log.getD []) ++ stop_line e)) fs1.rotated, none)
    else
      match (match arg with | some t => parseTime t | none => some now) with
      | none => (fs1, some "ts stop: could not parse stop time.")
      | some e => (FS.mk (some (fs1.log.getD [] ++ stop_line e)) fs1.rotated, none)

/-- Embedding of `get_reminder_interval_secs` (main.rs lines 1823–1829):
the interval file's trimmed content parsed as `u64`, falling back to the
300-second default on read or parse failure. -/
def get_reminder_interval_secs (file : Option (List Char)) : Nat :=
  match file with
  | some s => (parseU64 (rustTrim s)).getD 300
  | none => 300

/-- Unix signal numbers used by the daemon-stopping routine. -/
def SIGTERM : Int := 15

/-- Unix SIGKILL signal number. -/
def SIGKILL : Int := 9

/-- Embedding of `kill_reminder_daemon_if_running` (main.rs lines
1865–1899). Inputs: the PID file content (`none` = unreadable/missing),
the caller's own PID, and the two liveness observations (before SIGTERM
and after the 150 ms wait). Output: the signals sent, in order, and the
final PID file state (`none` = removed; the routine always removes it). -/
def kill_reminder_daemon_if_running (pidFile : Option (List Char)) (selfPid : Nat)
    (alive1 alive2 : Nat → Bool) : List (Nat × Int) × Option (List Char) :=
  match pidFile with
  | none => ([], none)
  | some data =>
    match parseU32 (rustTrim data) with
    | none => ([], none)
    | some pid =>
      if pid = selfPid then ([], none)
      else
        (if alive1 pid then
          (pid, SIGTERM) :: (if alive2 pid then [(pid, SIGKILL)] else [])
        else [], none)

/-- Outcome of one reminder prompt (`enum ReminderResult` in main.rs). -/
inductive ReminderResult where
  | dontBugMe
  | activity (a : List Char)
  /-- unreachable in the daemon loop: `show_reminder_prompt` resolves it -/
  | enterNew
  | showAgain
  | timeout
deriving DecidableEq

/-- Observable event of the daemon loop. -/
inductive DaemonEvent where
  | sleep (secs : Nat)
  | prompt
  | appendStart (activity : List Char)
  | stopAndExit
deriving DecidableEq

/-- Embedding of the loop of `run_reminder_daemon` (main.rs lines
2022–2041) as an event trace. `iv k` is the value
`get_reminder_interval_secs` returns at the `k`-th iteration; `outcomes`
scripts the successive prompt results (the trace ends when the script
does). Every iteration begins by sleeping the freshly read interval and
then prompting; `dontBugMe` breaks, `activity` appends a START and
continues, `showAgain` just continues, `timeout` stops tracking and
breaks. `enterNew` is unreachable in the source (a panic) and yields
an empty continuation here. -/
def run_reminder_daemon_trace (iv : Nat → Nat) : Nat → List ReminderResult → List DaemonEvent
  | _, [] => []
  | k, o :: rest =>
    .sleep (iv k) :: .prompt ::
      (match o with
       | .dontBugMe => []
       | .activity a => .appendStart a :: run_reminder_daemon_trace iv (k + 1) rest
       | .enterNew => []
       | .showAgain => run_reminder_daemon_trace iv (k + 1) rest
       | .timeout => [.stopAndExit])

/-! Helper lemmas about digits and decimal printing. -/

/-- The ten decimal digit characters. -/
def digitChars : List Char := ['0', '1', '2', '3', '4', '5', '6', '7', '8', '9']

theorem digitChar_mem (n : Nat) (h : n < 10) : digitChar n ∈ digitChars := by
  interval_cases n <;> decide

theorem digitChar_toNat (n : Nat) (h : n < 10) : (digitChar n).toNat = 48 + n := by
  interval_cases n <;> decide

theorem mem_digitChars_facts {c : Char} (h : c ∈ digitChars) :
    c.isDigit = true ∧ isWs c = false ∧ c ≠ '|' ∧ c ≠ '+' ∧ c ≠ '-' ∧ c ≠ '\n' := by
  simp only [digitChars, List.mem_cons, List.not_mem_nil, or_false] at h
  rcases h with rfl | rfl | rfl | rfl | rfl | rfl | rfl | rfl | rfl | rfl <;> decide

/-- Value function used by `digitsVal`. -/
def digitsFold (l : List Char) : Nat :=
  l.foldl (fun acc c => 10 * acc + (c.toNat - 48)) 0

theorem natToDigitsFuel_ok :
    ∀ f n, n < f →
      natToDigitsFuel f n ≠ [] ∧ (∀ c ∈ natToDigitsFuel f n, c ∈ digitChars) ∧
        digitsFold (natToDigitsFuel f n) = n := by
  intro f
  induction f with
  | zero => intro n h; omega
  | succ f ih =>
    intro n h
    by_cases h10 : n < 10
    · refine ⟨by simp [natToDigitsFuel, h10], ?_, ?_⟩
      · simp only [natToDigitsFuel, if_pos h10, List.mem_singleton]
        rintro c rfl
        exact digitChar_mem n h10
      · simp [natToDigitsFuel, if_pos h10, digitsFold, digitChar_toNat n h10]
    · have hdiv : n / 10 < f := by
        have : n / 10 < n := Nat.div_lt_self (by omega) (by omega)
        omega
      obtain ⟨hne, hmem, hval⟩ := ih (n / 10) hdiv
      refine ⟨?_, ?_, ?_⟩
      · simp [natToDigitsFuel, if_neg h10]
      · simp only [natToDigitsFuel, if_neg h10, List.mem_append, List.mem_singleton]
        rintro c (hc | rfl)
        · exact hmem c hc
        · exact digitChar_mem (n % 10) (Nat.mod_lt n (by omega))
      · simp only [natToDigitsFuel, if_neg h10, digitsFold, List.foldl_append]
        have : (n % 10 : Nat) < 10 := Nat.mod_lt n (by omega)
        simp only [List.foldl_cons, List.foldl_nil, digitChar_toNat (n % 10) this]
        have hv : (natToDigitsFuel f (n / 10)).foldl
            (fun acc c => 10 * acc + (c.toNat - 48)) 0 = n / 10 := hval
        rw [hv]
        omega

theorem natToDigits_ne_nil (n : Nat) : natToDigits n ≠ [] :=
  (natToDigitsFuel_ok (n + 1) n (Nat.lt_succ_self n)).1

theorem natToDigits_mem (n : Nat) : ∀ c ∈ natToDigits n, c ∈ digitChars :=
  (natToDigitsFuel_ok (n + 1) n (Nat.lt_succ_self n)).2.1

theorem digitsVal_natToDigits (n : Nat) : digitsVal (natToDigits n) = some n := by
  have h := natToDigitsFuel_ok (n + 1) n (Nat.lt_succ_self n)
  unfold digitsVal
  rw [if_pos]
  · exact congrArg some h.2.2
  · refine ⟨h.1, ?_⟩
    rw [List.all_eq_true]
    intro c hc
    exact (mem_digitChars_facts (h.2.1 c hc)).1

/-- Every character of `intToString n` is a digit or a leading minus:
in particular never whitespace and never `'|'`. -/
theorem intToString_chars (n : Int) :
    ∀ c ∈ intToString n, isWs c = false ∧ c ≠ '|' := by
  intro c hc
  unfold intToString at hc
  by_cases hn : n < 0
  · rw [if_pos hn] at hc
    rcases List.mem_cons.mp hc with rfl | hc
    · exact ⟨by decide, by decide⟩
    · have := mem_digitChars_facts (natToDigits_mem _ c hc)
      exact ⟨this.2.1, this.2.2.1⟩
  · rw [if_neg hn] at hc
    have := mem_digitChars_facts (natToDigits_mem _ c hc)
    exact ⟨this.2.1, this.2.2.1⟩

theorem intToString_ne_nil (n : Int) : intToString n ≠ [] := by
  unfold intToString
  by_cases hn : n < 0
  · simp [if_pos hn]
  · simp only [if_neg hn]
    exact natToDigits_ne_nil _

/-- The last character of `intToString n` is a decimal digit. -/
theorem intToString_getLast_digit (n : Int) :
    ∃ c r, (intToString n).reverse = c :: r ∧ c ∈ digitChars := by
  have base : ∀ m : Nat, ∃ c r, (natToDigits m).reverse = c :: r ∧ c ∈ digitChars := by
    intro m
    obtain ⟨c, r, hrev⟩ := List.exists_cons_of_ne_nil
      (l := (natToDigits m).reverse) (by simp [natToDigits_ne_nil m])
    refine ⟨c, r, hrev, ?_⟩
    have : c ∈ (natToDigits m).reverse := hrev ▸ List.mem_cons_self c r
    exact natToDigits_mem m c (List.mem_reverse.mp this)
  unfold intToString
  by_cases hn : n < 0
  · rw [if_pos hn]
    obtain ⟨c, r, hrev, hmem⟩ := base (-n).toNat
    exact ⟨c, r ++ ['-'], by simp [List.reverse_cons, hrev], hmem⟩
  · rw [if_neg hn]
    exact base n.toNat

/-- Parsing the canonical decimal form of an in-range `i64` recovers it. -/
theorem parseI64_intToString (e : Int) (h1 : -(2 ^ 63) ≤ e) (h2 : e < 2 ^ 63) :
    parseI64 (intToString e) = some e := by
  by_cases hn : e < 0
  · have hIl : intToString e = '-' :: natToDigits (-e).toNat := by
      unfold intToString; rw [if_pos hn]
    rw [hIl]
    have hle : (-e).toNat ≤ 2 ^ 63 := by
      rw [Int.toNat_le]; push_cast; omega
    have htn : ((-e).toNat : Int) = -e := Int.toNat_of_nonneg (by omega)
    simp only [parseI64, if_neg (by decide : ¬ ('-' : Char) = '+'),
      if_pos (rfl : ('-' : Char) = '-'), digitsVal_natToDigits, Option.some_bind,
      if_pos hle, htn, neg_neg, if_true]
  · have hnn : 0 ≤ e := le_of_not_lt hn
    have hIl : intToString e = natToDigits e.toNat := by
      unfold intToString; rw [if_neg hn]
    obtain ⟨c, cs, hcons⟩ := List.exists_cons_of_ne_nil (natToDigits_ne_nil e.toNat)
    have hcmem : c ∈ digitChars := natToDigits_mem _ c (hcons ▸ List.mem_cons_self c cs)
    obtain ⟨_, _, _, hplus, hminus, _⟩ := mem_digitChars_facts hcmem
    have hle : e.toNat ≤ 2 ^ 63 - 1 := by
      rw [Int.toNat_le]; push_cast; omega
    rw [hIl, hcons]
    simp only [parseI64, if_neg hplus, if_neg hminus, ← hcons, digitsVal_natToDigits,
      Option.some_bind, if_pos hle, Int.toNat_of_nonneg hnn]

/-! Helper lemmas about trimming, prefixes and splitting. -/

theorem dropWhile_append_cons {p : Char → Bool} (xs : List Char) {y : Char}
    (ys : List Char) (hy : p y = false) :
    List.dropWhile p (xs ++ y :: ys) = List.dropWhile p xs ++ y :: ys := by
  induction xs with
  | nil => simp [List.dropWhile_cons, hy]
  | cons x xs ih =>
    by_cases hx : p x
    · simp [List.dropWhile_cons, hx, ih]
    · simp [List.dropWhile_cons, hx]

theorem dropWhile_eq_self_of_all {p : Char → Bool} {l : List Char}
    (h : ∀ c ∈ l, p c = false) : List.dropWhile p l = l := by
  cases l with
  | nil => rfl
  | cons c cs => simp [List.dropWhile_cons, h c (List.mem_cons_self c cs)]

theorem dropWhile_append_of_all {p : Char → Bool} {xs : List Char} (ys : List Char)
    (h : ∀ c ∈ xs, p c = true) :
    List.dropWhile p (xs ++ ys) = List.dropWhile p ys := by
  induction xs with
  | nil => rfl
  | cons x xs ih =>
    simp only [List.cons_append, List.dropWhile_cons,
      h x (List.mem_cons_self x xs), if_true]
    exact ih fun c hc => h c (List.mem_cons_of_mem x hc)

theorem rustTrimEnd_eq_self {l : List Char} (h : ∀ c ∈ l, isWs c = false) :
    rustTrimEnd l = l := by
  unfold rustTrimEnd
  rw [dropWhile_eq_self_of_all (fun c hc => h c (List.mem_reverse.mp hc))]
  exact List.reverse_reverse l

theorem rustTrim_eq_self {l : List Char} (h : ∀ c ∈ l, isWs c = false) :
    rustTrim l = l := by
  unfold rustTrim
  rw [dropWhile_eq_self_of_all h, rustTrimEnd_eq_self h]

theorem stripTag_append (p s : List Char) : stripTag p (p ++ s) = some s := by
  induction p with
  | nil => rfl
  | cons c cs ih => simp [stripTag, ih]

theorem splitFirstBar_append {ds : List Char} (ys : List Char)
    (h : ∀ c ∈ ds, c ≠ '|') :
    splitFirstBar (ds ++ '|' :: ys) = (ds, some ys) := by
  induction ds with
  | nil => simp [splitFirstBar]
  | cons c cs ih =>
    have hc : c ≠ '|' := h c (List.mem_cons_self c cs)
    have hrec := ih fun d hd => h d (List.mem_cons_of_mem c hd)
    simp only [List.cons_append, splitFirstBar, if_neg hc, List.append_eq, hrec]

/-- Dropping while-false at a non-matching head is the identity. -/
theorem dropWhile_cons_false {p : Char → Bool} {c : Char} (l : List Char)
    (h : p c = false) : List.dropWhile p (c :: l) = c :: l := by
  simp [List.dropWhile_cons, h]

/-- Trimming the serialized START line keeps the structural part and
right-trims the activity. -/
theorem rustTrim_serialize_start (e : Int) (a : List Char) :
    rustTrim (serialize_entry (.start e a)) =
      startTag ++ (intToString e ++ ('|' :: rustTrimEnd a)) := by
  show rustTrim (startTag ++ (intToString e ++ ('|' :: (a ++ ['\n'])))) = _
  unfold rustTrim
  have hS : List.dropWhile isWs
      (startTag ++ (intToString e ++ ('|' :: (a ++ ['\n'])))) =
      startTag ++ (intToString e ++ ('|' :: (a ++ ['\n']))) :=
    dropWhile_cons_false _ (by decide)
  rw [hS]
  unfold rustTrimEnd
  have hrev : (startTag ++ (intToString e ++ ('|' :: (a ++ ['\n'])))).reverse =
      '\n' :: (a.reverse ++ ('|' :: ((intToString e).reverse ++ startTag.reverse))) := by
    simp [List.reverse_append]
  rw [hrev]
  have hdw : List.dropWhile isWs
      ('\n' :: (a.reverse ++ ('|' :: ((intToString e).reverse ++ startTag.reverse)))) =
      List.dropWhile isWs a.reverse ++ ('|' :: ((intToString e).reverse ++ startTag.reverse)) := by
    rw [List.dropWhile_cons, if_pos (by decide)]
    exact dropWhile_append_cons a.reverse _ (by decide)
  rw [hdw]
  simp [List.reverse_append, rustTrimEnd]

/-- Trimming the serialized STOP line yields `STOP|<digits>`. -/
theorem rustTrim_stop_line (e : Int) :
    rustTrim (stop_line e) = stopTag ++ intToString e := by
  unfold stop_line rustTrim
  have hS : List.dropWhile isWs (stopTag ++ (intToString e ++ ['\n'])) =
      stopTag ++ (intToString e ++ ['\n']) :=
    dropWhile_cons_false _ (by decide)
  rw [hS]
  unfold rustTrimEnd
  obtain ⟨c, r, hrev, hc⟩ := intToString_getLast_digit e
  have hrev2 : (stopTag ++ (intToString e ++ ['\n'])).reverse =
      '\n' :: (c :: (r ++ stopTag.reverse)) := by
    simp [List.reverse_append, hrev]
  rw [hrev2, List.dropWhile_cons, if_pos (by decide), List.dropWhile_cons,
    if_neg (by simp [(mem_digitChars_facts hc).2.1])]
  have hback : (c :: (r ++ stopTag.reverse)).reverse =
      stopTag ++ ((c :: r).reverse) := by
    simp [List.reverse_cons]
  rw [hback, ← hrev]
  simp

/-- Characterisation of parsing a serialized START entry: the epoch is
recovered exactly (for in-range epochs) and the activity comes back
right-trimmed, because `parse_line` trims the whole line first. -/
theorem parse_serialize_start (e : Int) (a : List Char)
    (h1 : -(2 ^ 63) ≤ e) (h2 : e < 2 ^ 63) :
    parse_line (serialize_entry (.start e a)) = some (.start e (rustTrimEnd a)) := by
  have hstrip : stripTag startTag (rustTrim (serialize_entry (.start e a))) =
      some (intToString e ++ '|' :: rustTrimEnd a) := by
    rw [rustTrim_serialize_start]
    exact stripTag_append _ _
  have hsplit : splitFirstBar (intToString e ++ '|' :: rustTrimEnd a) =
      (intToString e, some (rustTrimEnd a)) :=
    splitFirstBar_append _ fun c hc => (intToString_chars e c hc).2
  have htrim : rustTrim (intToString e) = intToString e :=
    rustTrim_eq_self fun c hc => (intToString_chars e c hc).1
  unfold parse_line
  rw [hstrip]
  simp [hsplit, htrim, parseI64_intToString e h1 h2]

/-- Characterisation of parsing a serialized STOP entry. -/
theorem parse_serialize_stop (e : Int) (h1 : -(2 ^ 63) ≤ e) (h2 : e < 2 ^ 63) :
    parse_line (serialize_entry (.stop e)) = some (.stop e) := by
  have hns : stripTag startTag (rustTrim (serialize_entry (.stop e))) = none := by
    show stripTag startTag (rustTrim (stop_line e)) = none
    rw [rustTrim_stop_line]
    simp [stopTag, startTag, stripTag]
  have hst : stripTag stopTag (rustTrim (serialize_entry (.stop e))) =
      some (intToString e) := by
    show stripTag stopTag (rustTrim (stop_line e)) = some (intToString e)
    rw [rustTrim_stop_line]
    exact stripTag_append _ _
  have htrim : rustTrim (intToString e) = intToString e :=
    rustTrim_eq_self fun c hc => (intToString_chars e c hc).1
  unfold parse_line
  rw [hns, hst]
  simp [htrim, parseI64_intToString e h1 h2]

/-- A blank line (one whose trim is empty) never parses. -/
theorem parse_line_blank {l : List Char} (h : rustTrim l = []) :
    parse_line l = none := by
  unfold parse_line
  rw [h]
  rfl

/-! Claim C3: serialisation round-trip. -/

/-- The epoch field of an entry. -/
def epochOf : LogLine → Int
  | .start e _ => e
  | .stop e => e

/-- The activity of a Start entry carries no trailing whitespace
(vacuous for Stop entries). -/
def actNoTrailingWs : LogLine → Prop
  | .start _ a => rustTrimEnd a = a
  | .stop _ => True

/-- C3 (amended): parsing the serialized line of an entry recovers the
entry, for every entry whose epoch is a representable `i64` value and,
in the Start case, whose activity has no trailing whitespace — including
activities containing the separator character `'|'`. -/
theorem parse_line_roundtrip (l : LogLine)
    (h1 : -(2 ^ 63) ≤ epochOf l) (h2 : epochOf l < 2 ^ 63)
    (hact : actNoTrailingWs l) :
    parse_line (serialize_entry l) = some l := by
  cases l with
  | start e a =>
    have ha : rustTrimEnd a = a := hact
    rw [parse_serialize_start e a h1 h2, ha]
  | stop e => exact parse_serialize_stop e h1 h2

/-- Witness for C3: a Start entry whose activity contains the separator
character round-trips. -/
theorem parse_line_roundtrip_witness :
    parse_line (serialize_entry (.start 100 ['a', '|', 'b'])) =
      some (.start 100 ['a', '|', 'b']) :=
  parse_line_roundtrip (.start 100 ['a', '|', 'b'])
    (by decide) (by decide)
    (show rustTrimEnd ['a', '|', 'b'] = ['a', '|', 'b'] by decide)

/-- C3 (counterexample): the round-trip fails as universally stated —
a Start entry whose activity ends in a space comes back with the space
trimmed away, because `parse_line` trims the whole line. -/
theorem parse_line_roundtrip_counterexample :
    parse_line (serialize_entry (.start 100 ['x', ' '])) ≠
        some (.start 100 ['x', ' ']) ∧
      parse_line (serialize_entry (.start 100 ['x', ' '])) =
        some (.start 100 ['x']) := by
  constructor <;> decide

/-! Claim C9: a stored interval of zero is returned verbatim. -/

/-- C9: when the interval file parses (after trimming) as a `u64`, that
value is returned verbatim — in particular a stored `0` yields 0, not
the 300-second default; the default applies exactly to read or parse
failures. -/
theorem interval_zero_not_defaulted :
    get_reminder_interval_secs (some ['0']) = 0 ∧
    (∀ s v, parseU64 (rustTrim s) = some v →
        get_reminder_interval_secs (some s) = v) ∧
    (∀ s, parseU64 (rustTrim s) = none →
        get_reminder_interval_secs (some s) = 300) ∧
    get_reminder_interval_secs none = 300 := by
  refine ⟨by decide, ?_, ?_, rfl⟩
  · intro s v h
    simp [get_reminder_interval_secs, h]
  · intro s h
    simp [get_reminder_interval_secs, h]

/-- Witness for C9: the file content `0` parses as 0 and is returned. -/
theorem interval_zero_not_defaulted_witness :
    parseU64 (rustTrim ['0']) = some 0 ∧
      get_reminder_interval_secs (some ['0']) = 0 :=
  ⟨by decide, interval_zero_not_defaulted.2.1 ['0'] 0 (by decide)⟩

/-! Claim C8: the self-PID guard of the daemon-stopping routine. -/

/-- C8: whenever the PID file's trimmed content parses as the caller's
own process id, the routine removes the PID file and sends no signal to
any process. -/
theorem kill_daemon_self_pid_guard (data : List Char) (selfPid : Nat)
    (alive1 alive2 : Nat → Bool)
    (h : parseU32 (rustTrim data) = some selfPid) :
    kill_reminder_daemon_if_running (some data) selfPid alive1 alive2 = ([], none) := by
  simp [kill_reminder_daemon_if_running, h]

/-- Witness for C8: PID file `42`, own pid 42, process observed alive. -/
theorem kill_daemon_self_pid_guard_witness :
    parseU32 (rustTrim ['4', '2']) = some 42 ∧
      kill_reminder_daemon_if_running (some ['4', '2']) 42
        (fun _ => true) (fun _ => true) = ([], none) :=
  ⟨by decide,
   kill_daemon_self_pid_guard ['4', '2'] 42 (fun _ => true) (fun _ => true) (by decide)⟩

/-! Claim C7: what the loop does after a `ShowAgain` outcome. -/

/-- C7 (amended): after a `ShowAgain` outcome the daemon loop advances to
the next cycle — it sleeps the freshly re-read interval again before
showing the prompt again; the three events beginning a `ShowAgain` cycle
followed by any further cycle are sleep, prompt, sleep. -/
theorem show_again_resleeps (iv : Nat → Nat) (k : Nat) (o : ReminderResult)
    (rest : List ReminderResult) :
    (run_reminder_daemon_trace iv k (.showAgain :: o :: rest)).take 3 =
      [.sleep (iv k), .prompt, .sleep (iv (k + 1))] := rfl

/-- C7 (counterexample): with a 300-second interval and a `ShowAgain`
outcome, the daemon does not re-prompt immediately — a sleep event
separates the two prompts, so the claimed immediate retry is false. -/
theorem show_again_immediate_retry_false :
    (run_reminder_daemon_trace (fun _ => 300) 0 [.showAgain, .dontBugMe]) =
        [.sleep 300, .prompt, .sleep 300, .prompt] ∧
      ¬ ((run_reminder_daemon_trace (fun _ => 300) 0 [.showAgain, .dontBugMe]).take 3 =
        [.sleep 300, .prompt, .prompt]) := by
  constructor <;> decide

/-! Claim C2: a Start with a non-empty stack closes the top session. -/

/-- C2: when the report loop meets a Start entry at epoch `e` while the
LIFO stack is non-empty, the top session is popped and closed at `e`
(crediting its activity and its start's weekday bucket when the duration
is positive), and `(e, activity)` is pushed on the remaining stack. -/
theorem start_closes_previous (st : RState) (e : Int) (a : List Char)
    (s : Int) (act : List Char) (rest : List (Int × List Char))
    (h : st.stack = (s, act) :: rest) :
    (stepEntry st (.start e a)).stack = (e, a) :: rest ∧
    (stepEntry st (.start e a)).actSec =
      (if 0 < e - s then bump st.actSec act (e - s) else st.actSec) ∧
    (stepEntry st (.start e a)).dowSec =
      (if 0 < e - s then
        st.dowSec.set (dowIndex s) (st.dowSec.getD (dowIndex s) 0 + (e - s))
       else st.dowSec) := by
  obtain ⟨stk, as0, ds0⟩ := st
  simp only at h
  subst h
  by_cases hd : 0 < e - s <;>
    simp [stepEntry, closeAt, hd]

/-- Witness for C2: a concrete state with one open session. -/
theorem start_closes_previous_witness :
    (RState.mk [(0, ['x'])] [] (List.replicate 7 0)).stack = (0, ['x']) :: [] ∧
    ((stepEntry (RState.mk [(0, ['x'])] [] (List.replicate 7 0))
        (.start 10 ['y'])).stack = (10, ['y']) :: [] ∧
      (stepEntry (RState.mk [(0, ['x'])] [] (List.replicate 7 0))
        (.start 10 ['y'])).actSec =
        (if 0 < (10 : Int) - 0 then
          bump (RState.mk [(0, ['x'])] [] (List.replicate 7 0)).actSec ['x'] (10 - 0)
         else (RState.mk [(0, ['x'])] [] (List.replicate 7 0)).actSec) ∧
      (stepEntry (RState.mk [(0, ['x'])] [] (List.replicate 7 0))
        (.start 10 ['y'])).dowSec =
        (if 0 < (10 : Int) - 0 then
          (RState.mk [(0, ['x'])] [] (List.replicate 7 0)).dowSec.set (dowIndex 0)
            ((RState.mk [(0, ['x'])] [] (List.replicate 7 0)).dowSec.getD (dowIndex 0) 0
              + (10 - 0))
         else (RState.mk [(0, ['x'])] [] (List.replicate 7 0)).dowSec)) :=
  ⟨rfl, start_closes_previous _ 10 ['y'] 0 ['x'] [] rfl⟩

/-! Claim C6: rotating a missing log errors; rotating twice errors. -/

/-- C6: rotating when the log file does not exist yields the "no data"
error (and leaves the files unchanged), and after any successful
rotation the source is gone, so an immediately repeated rotation yields
the same "no data" error — it never silently succeeds. -/
theorem rotate_missing_is_error :
    (∀ (r : Option (List Char)) (now : Int),
        do_rotate (FS.mk none r) now =
          (FS.mk none r, some "ts rotate: no timesheet data found.")) ∧
    (∀ (fs : FS) (now : Int) (fs2 : FS), do_rotate fs now = (fs2, none) →
        ∀ now2 : Int, do_rotate fs2 now2 =
          (fs2, some "ts rotate: no timesheet data found.")) := by
  have hlogNone : ∀ (fs : FS) (now : Int) (fs2 : FS),
      do_rotate fs now = (fs2, none) → fs2.log = none := by
    intro fs now fs2 h
    unfold do_rotate at h
    split at h
    · simp at h
    · split at h
      · simp at h
      · split at h <;> (rw [Prod.mk.injEq] at h; rw [← h.1])
  refine ⟨fun r now => rfl, fun fs now fs2 h now2 => ?_⟩
  have h2 := hlogNone fs now fs2 h
  obtain ⟨lg, rot⟩ := fs2
  simp only at h2
  subst h2
  rfl

/-- Witness for C6: a successful rotation followed by a failing one. -/
theorem rotate_missing_is_error_witness :
    do_rotate (FS.mk (some ('S' :: 'T' :: 'O' :: 'P' :: '|' :: '5' :: ['\n'])) none) 9 =
        (FS.mk none (some ('S' :: 'T' :: 'O' :: 'P' :: '|' :: '5' :: ['\n'])), none) ∧
      do_rotate (FS.mk none (some ('S' :: 'T' :: 'O' :: 'P' :: '|' :: '5' :: ['\n']))) 9 =
        (FS.mk none (some ('S' :: 'T' :: 'O' :: 'P' :: '|' :: '5' :: ['\n'])),
         some "ts rotate: no timesheet data found.") :=
  ⟨by decide,
   rotate_missing_is_error.2
     (FS.mk (some ('S' :: 'T' :: 'O' :: 'P' :: '|' :: '5' :: ['\n'])) none) 9
     (FS.mk none (some ('S' :: 'T' :: 'O' :: 'P' :: '|' :: '5' :: ['\n'])))
     (by decide) 9⟩

/-! Claim C5: rotation into an existing dated file merges contents. -/

/-- C5: when the dated destination already exists and the (possibly
STOP-amended) content has valid entries, rotation appends the entire
current log content to the destination and removes the source; the
destination's prior content stays as a prefix and the original source
content is a prefix of what is appended, so nothing is lost. -/
theorem rotate_merges_into_existing (fs : FS) (now : Int) (c d : List Char)
    (hlog : fs.log = some c) (hrot : fs.rotated = some d)
    (hvalid : max_epoch_in_log (rotate_content c now) ≠ none) :
    do_rotate fs now = (FS.mk none (some (d ++ rotate_content c now)), none) ∧
    c <+: rotate_content c now ∧
    d <+: d ++ rotate_content c now := by
  obtain ⟨m, hm⟩ := Option.ne_none_iff_exists'.mp hvalid
  refine ⟨?_, ?_, List.prefix_append d _⟩
  · simp [do_rotate, hlog, hm, hrot]
  · unfold rotate_content
    split
    · exact List.prefix_append c _
    · exact List.prefix_refl c

/-- Witness for C5: rotating `STOP|5\n` into an existing dated file. -/
theorem rotate_merges_into_existing_witness :
    max_epoch_in_log
        (rotate_content ('S' :: 'T' :: 'O' :: 'P' :: '|' :: '5' :: ['\n']) 9) ≠ none ∧
      do_rotate
        (FS.mk (some ('S' :: 'T' :: 'O' :: 'P' :: '|' :: '5' :: ['\n']))
          (some ('z' :: ['\n']))) 9 =
        (FS.mk none (some (('z' :: ['\n']) ++
          rotate_content ('S' :: 'T' :: 'O' :: 'P' :: '|' :: '5' :: ['\n']) 9)), none) ∧
      ('S' :: 'T' :: 'O' :: 'P' :: '|' :: '5' :: ['\n']) <+:
        rotate_content ('S' :: 'T' :: 'O' :: 'P' :: '|' :: '5' :: ['\n']) 9 ∧
      ('z' :: ['\n']) <+: ('z' :: ['\n']) ++
        rotate_content ('S' :: 'T' :: 'O' :: 'P' :: '|' :: '5' :: ['\n']) 9 :=
  ⟨by decide,
   rotate_merges_into_existing
     (FS.mk (some ('S' :: 'T' :: 'O' :: 'P' :: '|' :: '5' :: ['\n']))
        (some ('z' :: ['\n']))) 9
     ('S' :: 'T' :: 'O' :: 'P' :: '|' :: '5' :: ['\n']) ('z' :: ['\n'])
     rfl rfl (by decide)⟩

/-! Claim C4: what `last_line_epoch` returns. -/

theorem last_nonblank_line_eq_none {content : List Char}
    (h : ∀ l ∈ rustLines content, rustTrim l = []) :
    last_nonblank_line content = none := by
  unfold last_nonblank_line
  rw [List.find?_eq_none]
  intro l hl
  simp [h l (List.mem_reverse.mp hl)]

theorem last_nonblank_line_decomp {content : List Char}
    {pre post : List (List Char)} {l : List Char}
    (hdec : rustLines content = pre ++ l :: post)
    (hpost : ∀ b ∈ post, rustTrim b = []) (hl : rustTrim l ≠ []) :
    last_nonblank_line content = some l := by
  unfold last_nonblank_line
  rw [hdec]
  have hrev : (pre ++ l :: post).reverse = post.reverse ++ l :: pre.reverse := by
    simp
  rw [hrev, List.find?_append]
  have hnone : (post.reverse).find? (fun l => !(rustTrim l).isEmpty) = none := by
    rw [List.find?_eq_none]
    intro b hb
    simp [hpost b (List.mem_reverse.mp hb)]
  rw [hnone, Option.none_or]
  exact List.find?_cons_of_pos _ (by simp [hl])

/-- Epoch extraction used by `last_line_epoch` on its found line. -/
def epoch_of_parsed (l : List Char) : Option Int :=
  match parse_line l with
  | some (.start e _) => some e
  | some (.stop e) => some e
  | none => none

/-- C4 (amended): `last_line_epoch` returns nothing for a missing file
and for a file whose lines are all blank; when the file decomposes into
some lines, one last non-blank line `l` and trailing blank lines, it
returns the epoch of `l` exactly when `l` itself parses (and nothing
when `l` does not parse — it never searches further back). -/
theorem last_line_epoch_spec :
    last_line_epoch none = none ∧
    (∀ content, (∀ l ∈ rustLines content, rustTrim l = []) →
        last_line_epoch (some content) = none) ∧
    (∀ content (pre post : List (List Char)) (l : List Char),
        rustLines content = pre ++ l :: post →
        (∀ b ∈ post, rustTrim b = []) → rustTrim l ≠ [] →
        last_line_epoch (some content) = epoch_of_parsed l) := by
  refine ⟨rfl, ?_, ?_⟩
  · intro content h
    simp only [last_line_epoch, last_nonblank_line_eq_none h]
  · intro content pre post l hdec hpost hl
    simp only [last_line_epoch, last_nonblank_line_decomp hdec hpost hl,
      epoch_of_parsed]

/-- Witness for C4: a log whose last non-blank line is `START|5|x`,
followed by a blank line. -/
theorem last_line_epoch_spec_witness :
    rustLines "START|5|x\n \n".toList =
        [] ++ "START|5|x".toList :: [" ".toList] ∧
      (∀ b ∈ [" ".toList], rustTrim b = []) ∧
      rustTrim "START|5|x".toList ≠ [] ∧
      last_line_epoch (some "START|5|x\n \n".toList) =
        epoch_of_parsed "START|5|x".toList ∧
      epoch_of_parsed "START|5|x".toList = some 5 :=
  ⟨by decide, by decide, by decide,
   last_line_epoch_spec.2.2 "START|5|x\n \n".toList [] [" ".toList]
     "START|5|x".toList (by decide) (by decide) (by decide),
   by decide⟩

/-- Reading of claim C4's own words, for comparison: the epoch of the
last parseable line of the file (searching back past unparsable lines),
nothing when no line parses. -/
def specLastParseableEpoch (file : Option (List Char)) : Option Int :=
  match file with
  | none => none
  | some content =>
    match (rustLines content).reverse.find? (fun l => (parse_line l).isSome) with
    | none => none
    | some line => epoch_of_parsed line

/-- C4 (counterexample): on a log whose final non-blank line is
unparsable garbage, the code returns nothing although the file does
contain a parseable line (`START|1|x`), whose epoch the claim would
require. -/
theorem last_line_epoch_counterexample :
    specLastParseableEpoch (some "START|1|x\ngarbage\n".toList) = some 1 ∧
      last_line_epoch (some "START|1|x\ngarbage\n".toList) = none := by
  constructor <;> decide

/-! Claim C10: `ts stop` with no argument on a missing or blank log. -/

/-- C10: invoked with no time argument when the log is missing or has no
non-blank line, `cmd_stop` succeeds and appends `STOP|now` (creating the
file if needed); no line of the prior content parses, so the new Stop
entry has no matching Start. -/
theorem cmd_stop_appends_on_empty (weekStart : Int → Int)
    (parseTime : List Char → Option Int) (fs : FS) (now : Int)
    (hn0 : 0 ≤ now) (hn1 : now < 2 ^ 63)
    (h : fs.log = none ∨
      ∃ c, fs.log = some c ∧ ∀ l ∈ rustLines c, rustTrim l = []) :
    cmd_stop weekStart parseTime none fs now =
        (FS.mk (some (fs.log.getD [] ++ stop_line now)) fs.rotated, none) ∧
      (∀ l ∈ rustLines (fs.log.getD []), parse_line l = none) ∧
      parse_line (stop_line now) = some (.stop now) := by
  have hstop : parse_line (stop_line now) = some (.stop now) :=
    parse_serialize_stop now (by omega) hn1
  obtain ⟨lg, rot⟩ := fs
  rcases h with hnone | ⟨c, hc, hblank⟩
  · simp only at hnone
    subst hnone
    exact ⟨rfl, by simp [rustLines, splitNl], hstop⟩
  · simp only at hc
    subst hc
    have hlle : last_line_epoch (some c) = none := by
      simp only [last_line_epoch, last_nonblank_line_eq_none hblank]
    have hmr : maybe_rotate_if_previous_week weekStart (FS.mk (some c) rot) now =
        (FS.mk (some c) rot, none) := by
      simp [maybe_rotate_if_previous_week, hlle]
    have hnbs : lastNonBlankIsStop c = false := by
      simp [lastNonBlankIsStop, last_nonblank_line_eq_none hblank]
    refine ⟨?_, fun l hl => parse_line_blank (hblank l hl), hstop⟩
    unfold cmd_stop
    rw [hmr]
    simp [hnbs]

/-- Witness for C10: stopping with no argument and no log file. -/
theorem cmd_stop_appends_on_empty_witness :
    cmd_stop (fun _ => 0) (fun _ => none) none (FS.mk none none) 5 =
        (FS.mk (some ((FS.mk none none).log.getD [] ++ stop_line 5)) none, none) ∧
      (∀ l ∈ rustLines ((FS.mk none none).log.getD []), parse_line l = none) ∧
      parse_line (stop_line 5) = some (.stop 5) :=
  cmd_stop_appends_on_empty (fun _ => 0) (fun _ => none) (FS.mk none none) 5
    (by decide) (by decide) (Or.inl rfl)

/-! Claim C1: report of a single closed session. -/

theorem wrap32_eq_self {n : Int} (h1 : -(2 ^ 31) ≤ n) (h2 : n < 2 ^ 31) :
    wrap32 n = n := by
  unfold wrap32
  rw [Int.emod_eq_of_lt (by norm_num at h1 ⊢; omega) (by norm_num at h2 ⊢; omega)]
  omega

/-- The true weekday index (Sunday = 0 … Saturday = 6) of the UTC
calendar day containing epoch `t`, via flooring division; day 0 of the
epoch is a Thursday, hence the offset 4. -/
def utcWeekday (t : Int) : Nat := ((t.fdiv 86400 + 4) % 7).toNat

/-- The weekday index of the calendar day containing epoch `t` in a
local timezone at fixed offset `off` seconds east of UTC. -/
def localWeekday (off t : Int) : Nat := (((t + off).fdiv 86400 + 4) % 7).toNat

/-- For realistic epochs the report's bucket formula computes the
weekday of the UTC calendar day of the session start. -/
theorem dowIndex_eq_utcWeekday (t : Int) (h0 : 0 ≤ t)
    (hub : t < 86400 * (2 ^ 31 - 4)) : dowIndex t = utcWeekday t := by
  have htd : t.tdiv 86400 = t / 86400 := Int.tdiv_eq_ediv h0 (by norm_num)
  have hfd : t.fdiv 86400 = t / 86400 := Int.fdiv_eq_ediv t (by norm_num)
  have hd0 : 0 ≤ t / 86400 := Int.ediv_nonneg h0 (by norm_num)
  have hd1 : t / 86400 < 2 ^ 31 - 4 :=
    (Int.ediv_lt_iff_lt_mul (by norm_num)).mpr (by linarith [hub])
  have w1 : wrap32 (t.tdiv 86400) = t.tdiv 86400 := by
    refine wrap32_eq_self (by rw [htd]; norm_num; omega) (by rw [htd]; norm_num at hd1 ⊢; omega)
  have w2 : wrap32 (wrap32 (t.tdiv 86400) + 4) = t.tdiv 86400 + 4 := by
    rw [w1]
    refine wrap32_eq_self (by rw [htd]; norm_num; omega) (by rw [htd]; norm_num at hd1 ⊢; omega)
  unfold dowIndex utcWeekday
  rw [w2, htd, hfd]

theorem getD_replicate_zero (i : Nat) :
    (List.replicate 7 (0 : Int)).getD i 0 = 0 := by
  rw [List.getD_eq_getElem?_getD]
  rcases h : (List.replicate 7 (0 : Int))[i]? with _ | v
  · rfl
  · have := List.getElem?_mem h
    rw [List.eq_of_mem_replicate this]
    rfl

/-- Report of a single closed session, computed symbolically; shared by
the claim theorem and the local-time counterexample. -/
theorem single_session_report (t0 t1 : Int) (a : List Char)
    (h0 : 0 ≤ t0) (hub : t0 < 86400 * (2 ^ 31 - 4)) (h01 : t0 < t1) :
    process_log_for_report [(1, .start t0 a), (2, .stop t1)] none =
      ([(a, 100, ((t1 - t0 : Int) : ℚ) / 3600)],
       (List.replicate 7 (0 : ℚ)).set (utcWeekday t0) (((t1 - t0 : Int) : ℚ) / 3600),
       false) := by
  have hd : 0 < t1 - t0 := by omega
  have hdq : ((t1 - t0 : Int) : ℚ) ≠ 0 := by
    rw [Int.cast_ne_zero]; omega
  have hstep1 : stepEntry (RState.mk [] [] (List.replicate 7 0)) (.start t0 a) =
      RState.mk [(t0, a)] [] (List.replicate 7 0) := rfl
  have hget := getD_replicate_zero (dowIndex t0)
  have hstep2 : stepEntry (RState.mk [(t0, a)] [] (List.replicate 7 0)) (.stop t1) =
      RState.mk [] [(a, t1 - t0)]
        ((List.replicate 7 0).set (dowIndex t0) (t1 - t0)) := by
    simp only [stepEntry, closeAt, if_pos hd, bump, hget, zero_add]
  have hdow : ((List.replicate 7 (0 : Int)).set (utcWeekday t0) (t1 - t0)).map
      (fun s : Int => (s : ℚ) / 3600) =
      (List.replicate 7 (0 : ℚ)).set (utcWeekday t0) (((t1 - t0 : Int) : ℚ) / 3600) := by
    rw [List.map_set, List.map_replicate]
    norm_num
  unfold process_log_for_report
  simp only [List.foldl_cons, List.foldl_nil, hstep1, hstep2,
    List.map_cons, List.map_nil, List.sum_cons, List.sum_nil, add_zero,
    List.isEmpty_nil, Bool.not_true, sortByPctDesc, insertByPct,
    dowIndex_eq_utcWeekday t0 h0 hub, hdow]
  rw [mul_div_assoc, div_self hdq, mul_one]

/-- C1 (amended): one Start at `t0` with activity `a` and one Stop at
`t1 > t0`, no virtual stop: the report lists exactly activity `a` at
100% with `(t1 − t0)/3600` hours, the bucket of `t0`'s UTC weekday
(`utcWeekday`, Sunday = 0 … Saturday = 6) holds the same hours with all
other buckets zero, and work-in-progress is false. The bound on `t0`
keeps the source's `as i32` cast from wrapping. -/
theorem process_log_single_session (t0 t1 : Int) (a : List Char)
    (h0 : 0 ≤ t0) (hub : t0 < 86400 * (2 ^ 31 - 4)) (h01 : t0 < t1) :
    process_log_for_report [(1, .start t0 a), (2, .stop t1)] none =
      ([(a, 100, ((t1 - t0 : Int) : ℚ) / 3600)],
       (List.replicate 7 (0 : ℚ)).set (utcWeekday t0) (((t1 - t0 : Int) : ℚ) / 3600),
       false) :=
  single_session_report t0 t1 a h0 hub h01

/-- Witness for C1's amended theorem: the documented concrete scenario
`START|1000|c`, `STOP|4600` — one hour of `c` on a Thursday. -/
theorem process_log_single_session_witness :
    process_log_for_report [(1, .start 1000 ['c']), (2, .stop 4600)] none =
      ([(['c'], 100, ((4600 - 1000 : Int) : ℚ) / 3600)],
       (List.replicate 7 (0 : ℚ)).set (utcWeekday 1000) (((4600 - 1000 : Int) : ℚ) / 3600),
       false) :=
  process_log_single_session 1000 4600 ['c'] (by decide)
    (by norm_num) (by decide)

/-- Claim C1 exactly as stated, at a fixed-offset local timezone `off`:
one activity at 100% with `(t1 − t0)/3600` hours, the weekday bucket of
`t0`'s calendar day in local time holding the same hours, and no work
in progress. -/
def claimC1At (off t0 t1 : Int) (a : List Char) : Prop :=
  (process_log_for_report [(1, .start t0 a), (2, .stop t1)] none).1 =
      [(a, 100, ((t1 - t0 : Int) : ℚ) / 3600)] ∧
  (process_log_for_report [(1, .start t0 a), (2, .stop t1)] none).2.1.getD
      (localWeekday off t0) 0 = ((t1 - t0 : Int) : ℚ) / 3600 ∧
  (process_log_for_report [(1, .start t0 a), (2, .stop t1)] none).2.2 = false

/-- C1 (counterexample): in the local timezone UTC+1 (offset 3600 s),
a session starting at epoch 85200 (23:40 UTC Thursday Jan 1 1970, which
is 00:40 local Friday Jan 2) is credited by the code to the Thursday
bucket — the epoch arithmetic uses UTC day boundaries — so the bucket of
the start's local calendar day does not hold the session's hours. -/
theorem weekday_not_local_counterexample :
    ¬ claimC1At 3600 85200 88800 ['w'] := by
  intro h
  unfold claimC1At at h
  have hB := h.2.1
  have hrep := single_session_report 85200 88800 ['w'] (by norm_num) (by norm_num)
    (by norm_num)
  rw [hrep] at hB
  have hu : utcWeekday 85200 = 4 := by decide
  have hl : localWeekday 3600 85200 = 5 := by decide
  rw [hu, hl] at hB
  have hz : ((List.replicate 7 (0 : ℚ)).set 4
      (((88800 - 85200 : Int) : ℚ) / 3600)).getD 5 0 = 0 := rfl
  rw [hz] at hB
  have h1 : ((88800 - 85200 : Int) : ℚ) / 3600 = 1 := by norm_num
  rw [h1] at hB
  exact absurd hB (by norm_num)

end Timesheet
